import Mathlib

/-!  Verification of the cherry command-line parser.

A shallow embedding of the cherry crate (src/lib.rs, src/action.rs,
src/error.rs).  Rust `HashMap<String, V>` values are modelled as association
lists `List (String × V)` with insert-or-replace semantics; Rust string
slices are Lean `String`s (lists of characters), with UTF-8 byte-level
operations modelled explicitly where the source works on bytes.  Fallible
Rust methods returning `Result` are modelled with `Except Error`.
-/

namespace cherry

/-- Typed error for the library (src/error.rs).  Holds the error message. -/
structure Error where
  message : String
deriving DecidableEq, Repr

/-- Construct a new `Error` with the provided message (`Error::new`). -/
def Error.new (message : String) : Error := ⟨message⟩

/-- Lookup in an association list modelling `HashMap::get`: the value of the
first entry whose key equals `k`, if any. -/
def lookupA {α : Type} (k : String) : List (String × α) → Option α
  | [] => none
  | p :: rest => if p.1 = k then some p.2 else lookupA k rest

/-- Rust `HashMap::contains_key` on the association-list model. -/
def containsA {α : Type} (k : String) (m : List (String × α)) : Bool :=
  (lookupA k m).isSome

/-- Rust `HashMap::insert` on the association-list model: replace the value of an
existing entry for `k`, otherwise append a fresh entry. -/
def insertA {α : Type} (k : String) (v : α) (m : List (String × α)) : List (String × α) :=
  if containsA k m then m.map (fun p => if p.1 = k then (k, v) else p)
  else m ++ [(k, v)]

/-- Rust `Iterator::collect::<HashMap<_, _>>` on the association-list model:
insert the pairs in order (later duplicates overwrite earlier ones). -/
def collectA {α : Type} (l : List (String × α)) : List (String × α) :=
  l.foldl (fun m p => insertA p.1 p.2 m) []

/-- Positional argument schema entry (src/action.rs `Argument`). -/
structure Argument where
  title : String
  description : Option String
  filter : Option (String → Bool)

/-- Named option requiring a value (src/action.rs `Field`). -/
structure Field where
  title : String
  description : Option String
  short : Option Char
  default : Option String
  filter : Option (String → Bool)

/-- Boolean option (src/action.rs `Flag`). -/
structure Flag where
  title : String
  description : Option String
  short : Option Char
deriving Repr

/-- Command node (src/action.rs `Action<T>`).  `fields` and `flags` are keyed
by both the classifier's title and (when present) its one-character short
alias, exactly as the source inserts each `Field`/`Flag` under up to two keys.
The callback `then` is dropped (it never influences parsing).  The `children`
map and its accessor are not present in src/action.rs even though
src/lib.rs calls `get_child`; they are modelled from the spec (§3): a
name-keyed mapping of child `Action` nodes. -/
inductive Action : Type where
  | mk (keyword : String) (description : Option String) (arguments : List Argument)
       (fields : List (String × Field)) (flags : List (String × Flag))
       (children : List (String × Action)) : Action

/-- The keyword to invoke this Action. -/
def Action.keyword : Action → String
  | .mk k _ _ _ _ _ => k

/-- The Arguments this Action accepts. -/
def Action.arguments : Action → List Argument
  | .mk _ _ a _ _ _ => a

/-- The Fields this Action accepts (keyed by title and short). -/
def Action.fields : Action → List (String × Field)
  | .mk _ _ _ f _ _ => f

/-- The Flags this Action accepts (keyed by title and short). -/
def Action.flags : Action → List (String × Flag)
  | .mk _ _ _ _ f _ => f

/-- Modelled from the spec: the name-keyed child `Action` mapping, which is
missing from src/action.rs (only its caller `Cherry::parse` and tests are in
src/).  Spec §3: an Action owns "a name-keyed mapping of child Action
nodes". -/
def Action.children : Action → List (String × Action)
  | .mk _ _ _ _ _ c => c

/-- Modelled from the spec: `Action::get_child`, missing from src/action.rs.
Spec §4.2 step 3a matches a token "against a child keyword of the current
action", i.e. a lookup in the child map by keyword. -/
def Action.get_child (self : Action) (keyword : String) : Option Action :=
  lookupA keyword self.children

/-- Rust `Action::insert_field` (src/action.rs): reject an empty title, then a
four-way collision check of the new title and short against the combined
field/flag key spaces, then insert under the short key and the title key. -/
def Action.insert_field : Action → Field → Except Error Action
  | .mk kw ds args fs fl ch, field =>
    if field.title = "" then
      .error (Error.new "Field must have a non-empty title.")
    else if containsA field.title fs then
      .error (Error.new ("Action '" ++ kw ++ "' already contains a Field '" ++ field.title ++ "'."))
    else if containsA field.title fl then
      .error (Error.new ("Action '" ++ kw ++ "' already contains a Flag '" ++ field.title ++ "'."))
    else
      match field.short with
      | some short =>
        let value := String.mk [short]
        if containsA value fs then
          .error (Error.new ("Action '" ++ kw ++ "' already contains a Field with short tag '" ++ value ++ "'."))
        else if containsA value fl then
          .error (Error.new ("Action '" ++ kw ++ "' already contains a Flag with short tag '" ++ value ++ "'."))
        else
          .ok (.mk kw ds args (insertA field.title field (insertA value field fs)) fl ch)
      | none =>
        .ok (.mk kw ds args (insertA field.title field fs) fl ch)

/-- Rust `Action::insert_flag` (src/action.rs): the mirror image of
`Action.insert_field` for flags. -/
def Action.insert_flag : Action → Flag → Except Error Action
  | .mk kw ds args fs fl ch, flag =>
    if flag.title = "" then
      .error (Error.new "Flag must have a non-empty title.")
    else if containsA flag.title fl then
      .error (Error.new ("Action '" ++ kw ++ "' already contains a Flag '" ++ flag.title ++ "'."))
    else if containsA flag.title fs then
      .error (Error.new ("Action '" ++ kw ++ "' already contains a Field '" ++ flag.title ++ "'."))
    else
      match flag.short with
      | some short =>
        let value := String.mk [short]
        if containsA value fl then
          .error (Error.new ("Action '" ++ kw ++ "' already contains a Flag with short tag '" ++ value ++ "'."))
        else if containsA value fs then
          .error (Error.new ("Action '" ++ kw ++ "' already contains a Field with short tag '" ++ value ++ "'."))
        else
          .ok (.mk kw ds args fs (insertA flag.title flag (insertA value flag fl)) ch)
      | none =>
        .ok (.mk kw ds args fs (insertA flag.title flag fl) ch)

/-- The data parsed from a command (src/action.rs `Request<T>`).  The Rust
reference to the bound `Action` becomes a plain field. -/
structure Request where
  action : Action
  arguments : List String
  fields : List (String × Option String)
  flags : List (String × Bool)

/-- Rust `Request::new`: bind to `action`, no arguments yet, fields initialised
from each declared Field's default (keyed by title only), flags initialised
to `false` (keyed by title only). -/
def Request.new (action : Action) : Request :=
  { action := action
    arguments := []
    fields := collectA (action.fields.map (fun p => (p.2.title, p.2.default)))
    flags := collectA (action.flags.map (fun p => (p.2.title, false))) }

/-- Rust `Request::get_argument`. -/
def Request.get_argument (self : Request) (index : Nat) : Option String :=
  self.arguments.get? index

/-- Rust `Request::get_field`: `self.fields.get(key)?.as_ref()`. -/
def Request.get_field (self : Request) (key : String) : Option String :=
  match lookupA key self.fields with
  | some (some value) => some value
  | _ => none

/-- Rust `Request::get_flag`. -/
def Request.get_flag (self : Request) (key : String) : Option Bool :=
  lookupA key self.flags

/-- Rust `Request::has_argument`. -/
def Request.has_argument (self : Request) (index : Nat) : Bool :=
  index < self.arguments.length

/-- Rust `Request::has_field`: consults the action's combined title-and-short
field key map, not the request's own value map. -/
def Request.has_field (self : Request) (key : String) : Bool :=
  containsA key self.action.fields

/-- Rust `Request::has_flag`: consults the action's combined title-and-short flag
key map. -/
def Request.has_flag (self : Request) (key : String) : Bool :=
  containsA key self.action.flags

/-- Rust `Request::insert_argument`: look up the Argument schema entry at the
current argument count (error on overflow), run its filter if present, then
append the value. -/
def Request.insert_argument (self : Request) (argument : String) : Except Error Request :=
  match self.action.arguments.get? self.arguments.length with
  | none => .error (Error.new "Todo: Help.")
  | some arg =>
    match arg.filter with
    | some callback =>
      if callback argument then
        .ok { self with arguments := self.arguments ++ [argument] }
      else .error (Error.new "Todo: Help.")
    | none => .ok { self with arguments := self.arguments ++ [argument] }

/-- Rust `Request::insert_field`: look the key up in the action's field map
(error if absent), run the Field's filter if present, then store the value
under the Field's full title. -/
def Request.insert_field (self : Request) (field value : String) : Except Error Request :=
  match lookupA field self.action.fields with
  | none => .error (Error.new "Todo: Help.")
  | some fld =>
    match fld.filter with
    | some callback =>
      if callback value then
        .ok { self with fields := insertA fld.title (some value) self.fields }
      else .error (Error.new "Todo: Help.")
    | none => .ok { self with fields := insertA fld.title (some value) self.fields }

/-- Rust `Request::insert_flag`: look the key up in the action's flag map (error
if absent) and set the flag's title entry to `true`. -/
def Request.insert_flag (self : Request) (flag : String) : Except Error Request :=
  match lookupA flag self.action.flags with
  | none => .error (Error.new "Todo: Help.")
  | some value => .ok { self with flags := insertA value.title true self.flags }

/-- Rust `Request::validate`: the collected argument count must equal the declared
argument count. -/
def Request.validate (self : Request) : Bool :=
  self.arguments.length == self.action.arguments.length

/-- One pass of `str::replace` with the two-character pattern `'\\'`-`b` and
the one-character replacement `b`: non-overlapping, leftmost-first, scanning
the remainder of the original string after each replacement. -/
def replaceEsc (b : Char) : List Char → List Char
  | [] => []
  | [x] => [x]
  | x :: y :: rest =>
    if x = '\\' ∧ y = b then b :: replaceEsc b rest
    else x :: replaceEsc b (y :: rest)

/-- The character-level body of `Cherry::escape` (src/lib.rs): four chained
`replace` calls, in source order. -/
def escapeChars (l : List Char) : List Char :=
  replaceEsc '\\' (replaceEsc '-' (replaceEsc '"' (replaceEsc '\'' l)))

/-- Rust `Cherry::escape` (it ignores `&self` in the source). -/
def Cherry.escape (value : String) : String :=
  String.mk (escapeChars value.data)

/-- The UTF-8 encoding of one character, as numeric bytes (`str::bytes`). -/
def charUtf8Bytes (c : Char) : List Nat :=
  let n := c.toNat
  if n < 128 then [n]
  else if n < 2048 then [192 + n / 64, 128 + n % 64]
  else if n < 65536 then [224 + n / 4096, 128 + n / 64 % 64, 128 + n % 64]
  else [240 + n / 262144, 128 + n / 4096 % 64, 128 + n / 64 % 64, 128 + n % 64]

/-- Rust `str::len` of a character list: the UTF-8 byte length. -/
def utf8Len (l : List Char) : Nat :=
  (l.map (fun c => (charUtf8Bytes c).length)).sum

/-- Rust `String::from_utf8_lossy` of one byte: the character itself for an ASCII
byte, the replacement character otherwise. -/
def fromUtf8LossyByte (b : Nat) : String :=
  if b < 128 then String.mk [Char.ofNat b] else "�"

/-- The CLI application runner (src/lib.rs `Cherry<T>`): the top-level
actions keyed by keyword. -/
structure Cherry where
  actions : List (String × Action)

/-- Rust `str::strip_prefix` with a one-character pattern, on the character list:
`some` of the remainder when the first character matches. -/
def stripPrefixChar (p : Char) : List Char → Option (List Char)
  | c :: rest => if c = p then some rest else none
  | [] => none

/-- The option/argument classification step of `Cherry::parse` (src/lib.rs,
the body of the `while` loop after the child-path block).  `value` is the
already-unescaped token, `next` the raw token that would be consumed as a
field value.  Returns the updated request and whether `next` was consumed.
`short.len()` is the UTF-8 byte length; `stripped.bytes()` with
`from_utf8_lossy` on each single byte is modelled through
`charUtf8Bytes`/`fromUtf8LossyByte`. -/
def parseClassify (request : Request) (value : String) (next : Option String) :
    Except Error (Request × Bool) :=
  match stripPrefixChar '-' value.data with
  | some short =>
    let sc : List Char × Bool :=
      match stripPrefixChar '-' short with
      | some long => (long, false)
      | none => (short, decide (1 < utf8Len short))
    let stripped := String.mk sc.1
    if sc.2 then
      match ((sc.1.map charUtf8Bytes).flatten).foldlM
          (fun r b => r.insert_flag (fromUtf8LossyByte b)) request with
      | .error e => .error e
      | .ok r => .ok (r, false)
    else if request.has_flag stripped then
      match request.insert_flag stripped with
      | .error e => .error e
      | .ok r => .ok (r, false)
    else
      match next with
      | none => .error (Error.new "Todo: Help.")
      | some v =>
        match request.insert_field stripped (Cherry.escape v) with
        | .error e => .error e
        | .ok r => .ok (r, true)
  | none =>
    match request.insert_argument value with
    | .error e => .error e
    | .ok r => .ok (r, false)

/-- The token loop of `Cherry::parse` (src/lib.rs): while the child path is
active, try each token as a child keyword, descending and re-initialising
the request on a match; on the first failure the child path is switched off,
the request is re-initialised against the current action, and that same
token — like every later one — is classified by `parseClassify`. -/
def parseLoop : Action → Bool → Request → List String → Except Error Request
  | _, _, request, [] => .ok request
  | action, child_path, request, tok :: toks =>
    let value := Cherry.escape tok
    match (if child_path then action.get_child value else none) with
    | some child => parseLoop child true (Request.new child) toks
    | none =>
      let request := if child_path then Request.new action else request
      match toks with
      | [] =>
        match parseClassify request value none with
        | .error e => .error e
        | .ok (r, _) => .ok r
      | v :: toks2 =>
        match parseClassify request value (some v) with
        | .error e => .error e
        | .ok (r, true) => parseLoop action false r toks2
        | .ok (r, false) => parseLoop action false r (v :: toks2)

/-- Rust `Cherry::parse` (src/lib.rs): unescape the first token, resolve the
top-level action, run the token loop, then accept the request only if it
validates. -/
def Cherry.parse (self : Cherry) (command : List String) : Except Error Request :=
  match command with
  | [] => .error (Error.new "Todo: Help.")
  | first :: rest =>
    let keyword := Cherry.escape first
    match lookupA keyword self.actions with
    | none => .error (Error.new "Todo: Help.")
    | some action =>
      match parseLoop action true (Request.new action) rest with
      | .error e => .error e
      | .ok request =>
        if request.validate then .ok request else .error (Error.new "Todo: Help.")

/-- Rust `Cherry::parse_slice`: passes straight through to `parse`. -/
def Cherry.parse_slice (self : Cherry) (command : List String) : Except Error Request :=
  self.parse command

/-- Rust `char::is_whitespace`: membership in the Unicode White_Space set
(U+0009..U+000D, U+0020, U+0085, U+00A0, U+1680, U+2000..U+200A, U+2028,
U+2029, U+202F, U+205F, U+3000).  Lean's `Char.isWhitespace` covers only
space, tab, CR and LF, so the Rust predicate is modelled explicitly. -/
def isRustWhitespace (c : Char) : Bool :=
  [0x09, 0x0A, 0x0B, 0x0C, 0x0D, 0x20, 0x85, 0xA0, 0x1680,
    0x2000, 0x2001, 0x2002, 0x2003, 0x2004, 0x2005, 0x2006, 0x2007, 0x2008,
    0x2009, 0x200A, 0x2028, 0x2029, 0x202F, 0x205F, 0x3000].contains c.toNat

/-- The scanner loop of `Cherry::parse_str` (src/lib.rs).  State:
the remaining characters, the accumulation buffer `build` (the Rust `String`
buffer, as its character list), the completed `parts`, the active `quote`
and the previous iteration's `old_quote`.  A backslash consumes the
following character (error at end of input) and pushes the backslash into
the buffer before the flush check runs; quote characters toggle the quote
state; `old_quote ≠ quote` or unquoted whitespace flushes the buffer
without pushing the current character. -/
def scanLoop : List Char → List Char → List String → Option Char → Option Char →
    Except Error (List String)
  | [], build, parts, _, _ =>
    .ok (if build.isEmpty then parts else parts ++ [String.mk build])
  | character :: rest, build, parts, quote, old_quote =>
    if old_quote.isSome ∧ quote = none ∧ ¬ isRustWhitespace character then
      .error (Error.new "Todo: Help.")
    else if character = '\\' then
      match rest with
      | [] => .error (Error.new "Todo: Help.")
      | c2 :: rest2 =>
        let build1 := build ++ ['\\']
        if quote ≠ quote ∨ (quote = none ∧ isRustWhitespace c2) then
          scanLoop rest2 [] (if build1.isEmpty then parts else parts ++ [String.mk build1]) quote quote
        else
          scanLoop rest2 (build1 ++ [c2]) parts quote quote
    else
      let quote2 :=
        if character = '"' ∧ quote = some '"' then none
        else if character = '"' ∧ quote = none then some '"'
        else if character = '\'' ∧ quote = some '\'' then none
        else if character = '\'' ∧ quote = none then some '\''
        else quote
      if quote ≠ quote2 ∨ (quote2 = none ∧ isRustWhitespace character) then
        scanLoop rest [] (if build.isEmpty then parts else parts ++ [String.mk build]) quote2 quote
      else
        scanLoop rest (build ++ [character]) parts quote2 quote

/-- Rust `Cherry::parse_str`: run the scanner, then `parse` the token list. -/
def Cherry.parse_str (self : Cherry) (command : String) : Except Error Request :=
  match scanLoop command.data [] [] none none with
  | .error e => .error e
  | .ok parts => self.parse parts

/-- The behaviour the spec ascribes to the unescape pass (§4.3): one single
left-to-right rewrite of exactly the four sequences `\'`, `\"`, `\-`, `\\`;
any other backslash-prefixed pair passes through unchanged. -/
def escapeSpec : List Char → List Char
  | [] => []
  | [x] => [x]
  | x :: y :: rest =>
    if x = '\\' ∧ (y = '\'' ∨ y = '"' ∨ y = '-' ∨ y = '\\') then y :: escapeSpec rest
    else x :: escapeSpec (y :: rest)

/-- The behaviour the spec ascribes to the token loop once the child path is
off (§4.2 step 3b onwards): every remaining token is classified as a flag,
field or positional argument of the already-resolved action, with no child
lookup of any kind. -/
def classifyLoop : Action → Request → List String → Except Error Request
  | _, request, [] => .ok request
  | action, request, tok :: toks =>
    let value := Cherry.escape tok
    match toks with
    | [] =>
      match parseClassify request value none with
      | .error e => .error e
      | .ok (r, _) => .ok r
    | v :: toks2 =>
      match parseClassify request value (some v) with
      | .error e => .error e
      | .ok (r, true) => classifyLoop action r toks2
      | .ok (r, false) => classifyLoop action r (v :: toks2)

/-- Characters that an open `q`-quote scans to the end of input without
incident: no closing `q` and no backslash (a trailing backslash errors, and
an escaped pair is taken verbatim anyway). -/
def quoteSafe (q : Char) : List Char → Bool
  | [] => true
  | c :: rest =>
    if c = '\\' then
      match rest with
      | [] => false
      | _ :: rest2 => quoteSafe q rest2
    else (c ≠ q) && quoteSafe q rest

/-! ### Association-list lemmas -/

theorem lookupA_eq_none {α : Type} {k : String} {m : List (String × α)}
    (h : ∀ p ∈ m, p.1 ≠ k) : lookupA k m = none := by
  induction m with
  | nil => rfl
  | cons p m ih =>
    have hp : p.1 ≠ k := h p (List.mem_cons_self p m)
    simp only [lookupA, if_neg hp]
    exact ih (fun q hq => h q (List.mem_cons_of_mem p hq))

theorem lookupA_none_forall {α : Type} {k : String} {m : List (String × α)}
    (h : lookupA k m = none) : ∀ p ∈ m, p.1 ≠ k := by
  induction m with
  | nil => intro p hp; cases hp
  | cons p m ih =>
    intro q hq
    by_cases hp : p.1 = k
    · simp [lookupA, hp] at h
    · simp only [lookupA, if_neg hp] at h
      rcases List.mem_cons.mp hq with h1 | h1
      · subst h1; exact hp
      · exact ih h q h1

theorem lookupA_some_mem {α : Type} {k : String} {m : List (String × α)} {v : α}
    (h : lookupA k m = some v) : (k, v) ∈ m := by
  induction m with
  | nil => cases h
  | cons p m ih =>
    by_cases hp : p.1 = k
    · simp only [lookupA, if_pos hp] at h
      cases h
      have hpk : p = (k, p.2) := by cases p; simp_all
      rw [← hpk]
      exact List.mem_cons_self p m
    · simp only [lookupA, if_neg hp] at h
      exact List.mem_cons_of_mem p (ih h)

theorem lookupA_map_replace {α : Type} (k k2 : String) (v : α) (m : List (String × α)) :
    lookupA k2 (m.map (fun p => if p.1 = k then (k, v) else p)) =
      if k2 = k then (lookupA k m).map (fun _ => v) else lookupA k2 m := by
  induction m with
  | nil => simp only [List.map_nil, lookupA, Option.map_none]; split <;> rfl
  | cons p m ih =>
    simp only [List.map_cons, lookupA]
    by_cases hp : p.1 = k
    · simp only [if_pos hp, lookupA]
      by_cases h2 : k2 = k
      · subst h2; simp
      · have hk2 : ¬ k = k2 := fun h => h2 h.symm
        have hp2 : ¬ p.1 = k2 := fun h => h2 (h ▸ hp ▸ rfl)
        simp only [if_neg hk2, if_neg h2, if_neg hp2, ih, if_neg h2]
    · simp only [if_neg hp, lookupA]
      by_cases hp2 : p.1 = k2
      · have h2 : ¬ k2 = k := fun h => hp (hp2 ▸ h ▸ rfl)
        simp only [if_pos hp2, if_neg h2]
      · simp only [if_neg hp2, ih, if_neg hp]

theorem lookupA_append_single {α : Type} (k k2 : String) (v : α) (m : List (String × α)) :
    lookupA k2 (m ++ [(k, v)]) =
      if (lookupA k2 m).isSome then lookupA k2 m
      else if k = k2 then some v else none := by
  induction m with
  | nil => simp [lookupA]
  | cons p m ih =>
    simp only [List.cons_append, lookupA]
    by_cases hp : p.1 = k2
    · simp [if_pos hp]
    · simp only [if_neg hp, List.append_eq, ih]

theorem lookupA_insertA {α : Type} (k k2 : String) (v : α) (m : List (String × α)) :
    lookupA k2 (insertA k v m) = if k2 = k then some v else lookupA k2 m := by
  by_cases hc : containsA k m
  · obtain ⟨w, hw⟩ := Option.isSome_iff_exists.mp hc
    simp only [insertA, if_pos hc, lookupA_map_replace, hw]
    split <;> simp
  · have hnone : lookupA k m = none := by
      cases h : lookupA k m with
      | none => rfl
      | some w => rw [containsA, h] at hc; simp at hc
    simp only [insertA, if_neg hc, lookupA_append_single]
    by_cases h2 : k2 = k
    · subst h2
      simp [hnone, Option.isSome_none]
    · have hk2 : ¬ k = k2 := fun h => h2 h.symm
      simp only [if_neg h2, if_neg hk2]
      cases h : lookupA k2 m <;> simp

theorem lookupA_insertA_self {α : Type} (k : String) (v : α) (m : List (String × α)) :
    lookupA k (insertA k v m) = some v := by
  rw [lookupA_insertA, if_pos rfl]

theorem lookupA_insertA_ne {α : Type} {k k2 : String} (v : α) (m : List (String × α))
    (h : k2 ≠ k) : lookupA k2 (insertA k v m) = lookupA k2 m := by
  rw [lookupA_insertA, if_neg h]

theorem containsA_insertA_self {α : Type} (k : String) (v : α) (m : List (String × α)) :
    containsA k (insertA k v m) = true := by
  rw [containsA, lookupA_insertA_self]; rfl

theorem containsA_insertA_of {α : Type} {k2 : String} (k : String) (v : α)
    {m : List (String × α)} (h : containsA k2 m = true) :
    containsA k2 (insertA k v m) = true := by
  by_cases hk : k2 = k
  · subst hk; exact containsA_insertA_self k2 v m
  · rw [containsA, lookupA_insertA_ne v m hk]; exact h

theorem insertA_insertA_self {α : Type} (k : String) (v : α) (m : List (String × α)) :
    insertA k v (insertA k v m) = insertA k v m := by
  have hc : containsA k (insertA k v m) = true := containsA_insertA_self k v m
  rw [insertA, if_pos hc]
  by_cases h : containsA k m
  · rw [insertA, if_pos h, List.map_map]
    apply List.map_congr_left
    intro p _
    by_cases hp : p.1 = k <;> simp [hp]
  · rw [insertA, if_neg h, List.map_append]
    have hnone : lookupA k m = none := by
      cases hl : lookupA k m with
      | none => rfl
      | some w => rw [containsA, hl] at h; simp at h
    congr 1
    · have h1 : List.map (fun p => if p.1 = k then (k, v) else p) m = List.map id m :=
        List.map_congr_left (fun p hp => by
          rw [if_neg (lookupA_none_forall hnone p hp)]; rfl)
      rw [h1, List.map_id]
    · simp

theorem lookupA_collectA_none {α : Type} {k : String} {l : List (String × α)}
    (h : ∀ p ∈ l, p.1 ≠ k) : lookupA k (collectA l) = none := by
  have main : ∀ (l : List (String × α)) (acc : List (String × α)),
      (∀ p ∈ l, p.1 ≠ k) → lookupA k acc = none →
      lookupA k (l.foldl (fun m p => insertA p.1 p.2 m) acc) = none := by
    intro l
    induction l with
    | nil => intro acc _ hacc; exact hacc
    | cons p l ih =>
      intro acc hl hacc
      simp only [List.foldl_cons]
      refine ih _ (fun q hq => hl q (List.mem_cons_of_mem p hq)) ?_
      rw [lookupA_insertA, if_neg ?_]
      · exact hacc
      · exact fun he => hl p (List.mem_cons_self p l) he.symm
  exact main l [] h rfl

/-! ### C1: argument counts of accepted requests -/

theorem parse_ok_validates {c : Cherry} {command : List String} {req : Request}
    (h : c.parse command = .ok req) :
    req.arguments.length = req.action.arguments.length := by
  match command with
  | [] => simp [Cherry.parse] at h
  | first :: rest =>
    simp only [Cherry.parse] at h
    split at h
    · cases h
    · split at h
      · cases h
      · split at h
        · rename_i hv
          cases h
          simpa [Request.validate] using hv
        · cases h

/-- C1: whenever `Cherry::parse` — and hence `parse_str` and `parse_slice` —
returns `Ok` with a `Request`, the number of collected argument values
equals the number of `Argument`s declared on the resolved `Action`; a
request whose count differs is never returned (it fails validation and
`parse` errors instead). -/
theorem parse_ok_argument_count (c : Cherry) :
    (∀ command req, c.parse command = .ok req →
      req.arguments.length = req.action.arguments.length) ∧
    (∀ s req, c.parse_str s = .ok req →
      req.arguments.length = req.action.arguments.length) ∧
    (∀ command req, c.parse_slice command = .ok req →
      req.arguments.length = req.action.arguments.length) := by
  refine ⟨fun _ _ h => parse_ok_validates h, fun s req h => ?_, fun _ _ h => parse_ok_validates h⟩
  rw [Cherry.parse_str] at h
  cases hs : scanLoop s.data [] [] none none with
  | error e => rw [hs] at h; cases h
  | ok parts => rw [hs] at h; exact parse_ok_validates h

/-- Fixture: the action `my_action` declaring one positional argument. -/
def actW : Action := .mk "my_action" none [⟨"my_argument", none, none⟩] [] [] []

/-- Fixture: a runner holding `actW`. -/
def cherryW : Cherry := ⟨[("my_action", actW)]⟩

/-- Fixture: the request produced by `cherryW.parse ["my_action", "first"]`. -/
def reqW : Request := { action := actW, arguments := ["first"], fields := [], flags := [] }

/-- Witness for C1 at a concrete schema and input. -/
theorem parse_ok_argument_count_witness :
    cherryW.parse ["my_action", "first"] = .ok reqW ∧
    reqW.arguments.length = reqW.action.arguments.length :=
  ⟨rfl, (parse_ok_argument_count cherryW).1 ["my_action", "first"] reqW rfl⟩

/-! ### C8: flag insertion is idempotent -/

/-- C8: `Request::insert_flag` on a flag that is already set never errors,
leaves the flag `true`, and changes no other flag, field or argument of the
request; re-inserting yields the identical request. -/
theorem insert_flag_idempotent (r : Request) (k : String) (f : Flag)
    (hf : lookupA k r.action.flags = some f) :
    ∃ r2, r.insert_flag k = .ok r2 ∧ r2.insert_flag k = .ok r2 ∧
      r2.get_flag f.title = some true ∧
      (∀ k2, k2 ≠ f.title → r2.get_flag k2 = r.get_flag k2) ∧
      r2.arguments = r.arguments ∧ r2.fields = r.fields ∧ r2.action = r.action := by
  refine ⟨{ r with flags := insertA f.title true r.flags }, ?_, ?_, ?_, ?_, rfl, rfl, rfl⟩
  · simp [Request.insert_flag, hf]
  · simp [Request.insert_flag, hf, insertA_insertA_self]
  · simp [Request.get_flag, lookupA_insertA_self]
  · intro k2 hk2
    simp [Request.get_flag, lookupA_insertA_ne _ _ hk2]

/-- Fixture: the action `run` with a single flag `verbose`. -/
def actF : Action := .mk "run" none [] [] [("verbose", ⟨"verbose", none, none⟩)] []

/-- Witness for C8: setting `verbose` twice on a fresh request. -/
theorem insert_flag_idempotent_witness :
    lookupA "verbose" (Request.new actF).action.flags = some ⟨"verbose", none, none⟩ ∧
    ∃ r2, (Request.new actF).insert_flag "verbose" = .ok r2 ∧
      r2.insert_flag "verbose" = .ok r2 ∧
      r2.get_flag (Flag.title ⟨"verbose", none, none⟩) = some true ∧
      (∀ k2, k2 ≠ Flag.title ⟨"verbose", none, none⟩ →
        r2.get_flag k2 = (Request.new actF).get_flag k2) ∧
      r2.arguments = (Request.new actF).arguments ∧
      r2.fields = (Request.new actF).fields ∧
      r2.action = (Request.new actF).action :=
  ⟨rfl, insert_flag_idempotent (Request.new actF) "verbose" ⟨"verbose", none, none⟩ rfl⟩

/-! ### C10: `has_field` against `get_field` on a short alias -/

/-- C10: when an Action reaches a Field through the one-character key `c`
(a short alias) but no Field on the Action is titled `c`, then
`Request::has_field "c"` answers `true` while `Request::get_field "c"`
answers `none` — also after the field's value is set through the short —
because values live under full titles while `has_field` consults the
action's combined title-and-short key map. -/
theorem has_field_not_get_field (a : Action) (c : Char) (f : Field)
    (hmem : lookupA (String.mk [c]) a.fields = some f)
    (htitle : ∀ p ∈ a.fields, p.2.title ≠ String.mk [c]) :
    (Request.new a).has_field (String.mk [c]) = true ∧
    (Request.new a).get_field (String.mk [c]) = none ∧
    (∀ v r2, (Request.new a).insert_field (String.mk [c]) v = .ok r2 →
      r2.has_field (String.mk [c]) = true ∧ r2.get_field (String.mk [c]) = none) := by
  have hfields : lookupA (String.mk [c]) (Request.new a).fields = none := by
    apply lookupA_collectA_none
    intro p hp
    obtain ⟨q, hq, hqe⟩ := List.mem_map.mp hp
    rw [← hqe]
    exact htitle q hq
  have hft : String.mk [c] ≠ f.title :=
    fun h => htitle (String.mk [c], f) (lookupA_some_mem hmem) h.symm
  refine ⟨?_, ?_, ?_⟩
  · simp [Request.has_field, Request.new, containsA, hmem]
  · simp [Request.get_field, hfields]
  · intro v r2 h
    have hnewaction : (Request.new a).action = a := rfl
    have hdone : ∀ (r3 : Request), r3.action = a →
        r3.fields = insertA f.title (some v) (Request.new a).fields →
        r3.has_field (String.mk [c]) = true ∧ r3.get_field (String.mk [c]) = none := by
      intro r3 ha hf3
      constructor
      · simp [Request.has_field, ha, containsA, hmem]
      · simp [Request.get_field, hf3, lookupA_insertA_ne _ _ hft, hfields]
    cases hfil : f.filter with
    | none =>
      simp only [Request.insert_field, hnewaction, hmem, hfil] at h
      cases h
      exact hdone _ rfl rfl
    | some callback =>
      simp only [Request.insert_field, hnewaction, hmem, hfil] at h
      split at h
      · cases h
        exact hdone _ rfl rfl
      · cases h

/-- Fixture: a field titled `effield` with short alias `c`. -/
def fldS : Field := ⟨"effield", none, some 'c', none, none⟩

/-- Fixture: the action `set` holding `fldS` under both of its keys. -/
def actS : Action := .mk "set" none [] [("c", fldS), ("effield", fldS)] [] []

/-- Witness for C10 on `actS` with short key `c`. -/
theorem has_field_not_get_field_witness :
    lookupA (String.mk ['c']) actS.fields = some fldS ∧
    (Request.new actS).has_field (String.mk ['c']) = true ∧
    (Request.new actS).get_field (String.mk ['c']) = none ∧
    (∀ v r2, (Request.new actS).insert_field (String.mk ['c']) v = .ok r2 →
      r2.has_field (String.mk ['c']) = true ∧ r2.get_field (String.mk ['c']) = none) :=
  ⟨rfl, has_field_not_get_field actS 'c' fldS rfl (by decide)⟩

/-! ### Scanner step lemmas -/

theorem scanLoop_entry_error (character : Char) (rest build : List Char) (parts : List String)
    (quote old_quote : Option Char)
    (h : old_quote.isSome ∧ quote = none ∧ ¬ isRustWhitespace character) :
    scanLoop (character :: rest) build parts quote old_quote =
      .error (Error.new "Todo: Help.") := by
  rw [scanLoop.eq_def]
  simp only [if_pos h]

theorem scanLoop_quoted_push (c : Char) (q : Char) (rest build : List Char) (parts : List String)
    (old_quote : Option Char) (hc : ¬ c = '\\')
    (h1 : ¬ (c = '"' ∧ q = '"'))
    (h3 : ¬ (c = '\'' ∧ q = '\'')) :
    scanLoop (c :: rest) build parts (some q) old_quote =
      scanLoop rest (build ++ [c]) parts (some q) (some q) := by
  rw [scanLoop.eq_def]
  simp [hc, h1, h3]

/-! ### C6: a closed quote must abut whitespace or end of input -/

/-- C6: in the `parse_str` scanner, closing a quote and reading a
non-whitespace character right after it is an error: the iteration that
closes the quote flushes the buffer, and the next iteration's entry check
(`old_quote` set, `quote` cleared, current character non-whitespace)
fails. -/
theorem scan_closed_quote_abut_error (q d : Char) (rest : List Char) (build : List Char)
    (parts : List String) (old_quote : Option Char)
    (hq : q = '"' ∨ q = '\'') (hd : ¬ isRustWhitespace d) :
    scanLoop (q :: d :: rest) build parts (some q) old_quote =
      .error (Error.new "Todo: Help.") := by
  have h2 : ∀ parts2 : List String, scanLoop (d :: rest) [] parts2 none (some q) =
      .error (Error.new "Todo: Help.") :=
    fun parts2 => scanLoop_entry_error d rest [] parts2 none (some q) ⟨rfl, rfl, hd⟩
  rcases hq with h | h <;> subst h <;> simp [scanLoop, hd, h2]

/-- Witness for C6: the tail of `'my action'value` after its opening quote.
The scanner state holds `my action` in the buffer with the single quote
active when the closing quote arrives, immediately followed by `v`. -/
theorem scan_closed_quote_abut_error_witness :
    ('\'' = '"' ∨ '\'' = '\'') ∧ ¬ (isRustWhitespace 'v') ∧
    scanLoop ('\'' :: 'v' :: ['a', 'l', 'u', 'e']) "my action".data [] (some '\'') none =
      .error (Error.new "Todo: Help.") :=
  ⟨Or.inr rfl, by decide,
    scan_closed_quote_abut_error '\'' 'v' ['a', 'l', 'u', 'e'] "my action".data [] none
      (Or.inr rfl) (by decide)⟩

/-! ### C7: end of input inside an open quote -/

/-- Counterexample to C7 as stated: the raw input `'ab\` ends while the
single quote is still open, yet the scanner errors — the trailing backslash
has no following character to consume — instead of flushing the buffer as a
final token. -/
theorem scan_unterminated_quote_counterexample :
    scanLoop ['\'', 'a', 'b', '\\'] [] [] none none =
      .error (Error.new "Todo: Help.") := rfl

/-- C7 (amended): while a quote is open, input that never closes the quote
and does not end in a dangling backslash is scanned to the end without
error, every character (including whole escape pairs) is taken verbatim
into the buffer, and the buffer is flushed at end of input as a single
final token. -/
theorem scan_unterminated_quote (q : Char) (cs : List Char) (build : List Char)
    (parts : List String) (old_quote : Option Char)
    (hsafe : quoteSafe q cs = true) :
    scanLoop cs build parts (some q) old_quote =
      .ok (if (build ++ cs).isEmpty then parts else parts ++ [String.mk (build ++ cs)]) := by
  have H : ∀ (n : Nat) (cs : List Char), cs.length ≤ n → quoteSafe q cs = true →
      ∀ (build : List Char) (parts : List String) (old_quote : Option Char),
      scanLoop cs build parts (some q) old_quote =
        .ok (if (build ++ cs).isEmpty then parts else parts ++ [String.mk (build ++ cs)]) := by
    intro n
    induction n with
    | zero =>
      intro cs hlen _ build parts old_quote
      have hnil : cs = [] := List.eq_nil_of_length_eq_zero (Nat.le_zero.mp hlen)
      subst hnil
      simp [scanLoop]
    | succ n ih =>
      intro cs hlen hsafe build parts old_quote
      match cs with
      | [] => simp [scanLoop]
      | c :: rest =>
        by_cases hc : c = '\\'
        · subst hc
          cases rest with
          | nil => simp [quoteSafe] at hsafe
          | cons c2 rest2 =>
            have hsafe2 : quoteSafe q rest2 = true := by simpa [quoteSafe] using hsafe
            have step : scanLoop ('\\' :: c2 :: rest2) build parts (some q) old_quote =
                scanLoop rest2 (build ++ ['\\', c2]) parts (some q) (some q) := by
              simp [scanLoop, List.append_assoc]
            rw [step, ih rest2 (by simp at hlen; omega) hsafe2]
            simp
        · have hcq : ¬ c = q ∧ quoteSafe q rest = true := by
            have h2 := hsafe
            rw [quoteSafe.eq_def] at h2
            simp [hc] at h2
            exact h2
          have h1 : ¬ (c = '"' ∧ q = '"') := fun h => hcq.1 (h.1.trans h.2.symm)
          have h3 : ¬ (c = '\'' ∧ q = '\'') := fun h => hcq.1 (h.1.trans h.2.symm)
          rw [scanLoop_quoted_push c q rest build parts old_quote hc h1 h3,
            ih rest (by simp at hlen; omega) hcq.2]
          simp
  exact H cs.length cs le_rfl hsafe build parts old_quote

/-- Witness for the amended C7: the remainder of `'unterminated value`
after its opening quote scans to a single flushed token. -/
theorem scan_unterminated_quote_witness :
    quoteSafe '\'' "unterminated value".data = true ∧
    scanLoop "unterminated value".data [] [] (some '\'') none = .ok ["unterminated value"] :=
  ⟨by decide,
    (scan_unterminated_quote '\'' "unterminated value".data [] [] none (by decide)).trans rfl⟩

/-! ### C5: backslash handling in the scanner -/

/-- Counterexample to C5 as stated: in `a\ b` (outside any quote) the
backslash does not protect the space — the buffer `a\` is flushed and the
escaped space acts as a token separator, producing two tokens instead of
the single token `a\ b`. -/
theorem scan_escaped_space_counterexample :
    scanLoop ['a', '\\', ' ', 'b'] [] [] none none = .ok ["a\\", "b"] ∧
    (["a\\", "b"] : List String) ≠ ["a\\ b"] :=
  ⟨rfl, by decide⟩

/-- C5 (amended): a backslash always consumes the following character and
retains the backslash in the buffer, and the consumed character never
toggles the quote state; the consumed character is taken verbatim into the
same token unless the scanner is outside any quote and the character is
whitespace, in which case the buffer (backslash included) is flushed and
the whitespace separates tokens. -/
theorem scan_backslash_pair (c2 : Char) (rest : List Char) (build : List Char)
    (parts : List String) (quote old_quote : Option Char)
    (hentry : ¬ (old_quote.isSome ∧ quote = none)) :
    scanLoop ('\\' :: c2 :: rest) build parts quote old_quote =
      if quote = none ∧ isRustWhitespace c2 then
        scanLoop rest [] (parts ++ [String.mk (build ++ ['\\'])]) quote quote
      else
        scanLoop rest (build ++ ['\\', c2]) parts quote quote := by
  by_cases hws : quote = none ∧ isRustWhitespace c2
  · have hos : ¬ old_quote.isSome = true := fun h => hentry ⟨h, hws.1⟩
    rw [if_pos hws]
    simp [scanLoop, hws.1, hws.2, hos]
  · have hbw : isRustWhitespace '\\' = false := by decide
    rw [if_neg hws]
    simp [scanLoop, hentry, hws, hbw, List.append_assoc]

/-- Witness for the amended C5 at both behaviours: an escaped space outside
quotes separates, an escaped quote character inside a token is taken
verbatim. -/
theorem scan_backslash_pair_witness :
    (¬ ((none : Option Char).isSome ∧ (none : Option Char) = none)) ∧
    scanLoop ('\\' :: ' ' :: ['b']) ['a'] [] none none =
      (if (none : Option Char) = none ∧ isRustWhitespace ' ' then
        scanLoop ['b'] [] ([] ++ [String.mk (['a'] ++ ['\\'])]) none none
      else
        scanLoop ['b'] (['a'] ++ ['\\', ' ']) [] none none) :=
  ⟨by simp, scan_backslash_pair ' ' ['b'] ['a'] [] none none (by simp)⟩

/-! ### C2: the child path never reactivates -/

theorem parseLoop_false_cons (a : Action) (r : Request) (tok v : String) (toks2 : List String) :
    parseLoop a false r (tok :: v :: toks2) =
      match parseClassify r (Cherry.escape tok) (some v) with
      | .error e => .error e
      | .ok (r2, true) => parseLoop a false r2 toks2
      | .ok (r2, false) => parseLoop a false r2 (v :: toks2) := rfl

theorem classifyLoop_cons (a : Action) (r : Request) (tok v : String) (toks2 : List String) :
    classifyLoop a r (tok :: v :: toks2) =
      match parseClassify r (Cherry.escape tok) (some v) with
      | .error e => .error e
      | .ok (r2, true) => classifyLoop a r2 toks2
      | .ok (r2, false) => classifyLoop a r2 (v :: toks2) := rfl

/-- C2: once the child path is off, `Cherry::parse`'s token loop coincides
with the pure classification loop: no later token is ever looked up as a
child keyword (`classifyLoop` performs no child lookup at all), every
remaining token is classified as a flag, field or positional argument of
the already-resolved action. -/
theorem child_path_off_classifies (toks : List String) (action : Action) (request : Request) :
    parseLoop action false request toks = classifyLoop action request toks := by
  have H : ∀ (n : Nat) (toks : List String), toks.length ≤ n →
      ∀ (action : Action) (request : Request),
      parseLoop action false request toks = classifyLoop action request toks := by
    intro n
    induction n with
    | zero =>
      intro toks hlen a r
      have hnil : toks = [] := List.eq_nil_of_length_eq_zero (Nat.le_zero.mp hlen)
      subst hnil
      rfl
    | succ n ih =>
      intro toks hlen a r
      match toks with
      | [] => rfl
      | tok :: toks =>
        cases toks with
        | nil => rfl
        | cons v toks2 =>
          rw [parseLoop_false_cons, classifyLoop_cons]
          cases hcl : parseClassify r (Cherry.escape tok) (some v) with
          | error e => rfl
          | ok p =>
            match p with
            | (r2, true) => exact ih toks2 (by simp at hlen; omega) a r2
            | (r2, false) => exact ih (v :: toks2) (by simp at hlen ⊢; omega) a r2
  exact H toks.length toks le_rfl action request

/-! ### C9: the four-way collision check, in both directions -/

/-- C9: on one Action, inserting a Field whose title or short occurs in the
combined key space of the existing field and flag maps fails, and so does
the mirror-image Flag insertion; a successful insertion registers the new
classifier's title and short in its map's key space, which makes the check
symmetric in insertion order (each direction's error premise is established
by the other direction's successful insertion). -/
theorem insert_field_flag_collision (a : Action) (f : Field) (g : Flag) :
    ((containsA f.title a.fields = true ∨ containsA f.title a.flags = true ∨
        (∃ c, f.short = some c ∧
          (containsA (String.mk [c]) a.fields = true ∨
            containsA (String.mk [c]) a.flags = true))) →
      ∃ e, a.insert_field f = .error e) ∧
    ((containsA g.title a.flags = true ∨ containsA g.title a.fields = true ∨
        (∃ c, g.short = some c ∧
          (containsA (String.mk [c]) a.flags = true ∨
            containsA (String.mk [c]) a.fields = true))) →
      ∃ e, a.insert_flag g = .error e) ∧
    (∀ a2, a.insert_field f = .ok a2 →
      containsA f.title a2.fields = true ∧
      ∀ c, f.short = some c → containsA (String.mk [c]) a2.fields = true) ∧
    (∀ a2, a.insert_flag g = .ok a2 →
      containsA g.title a2.flags = true ∧
      ∀ c, g.short = some c → containsA (String.mk [c]) a2.flags = true) := by
  cases a with
  | mk kw ds args fs fl ch =>
    simp only [Action.fields, Action.flags]
    refine ⟨?_, ?_, ?_, ?_⟩
    · intro h
      by_cases h0 : f.title = ""
      · exact ⟨_, by simp only [Action.insert_field, h0]; rfl⟩
      · by_cases h1 : containsA f.title fs = true
        · exact ⟨_, by simp only [Action.insert_field, h0, h1]; rfl⟩
        · by_cases h2 : containsA f.title fl = true
          · exact ⟨_, by simp only [Action.insert_field, h0, h1, h2]; rfl⟩
          · rcases h with hA | hB | ⟨c, hcs, hC⟩
            · exact absurd hA h1
            · exact absurd hB h2
            · by_cases h3 : containsA (String.mk [c]) fs = true
              · exact ⟨_, by simp only [Action.insert_field, h0, h1, h2, hcs, h3]; rfl⟩
              · rcases hC with hC | hC
                · exact absurd hC h3
                · exact ⟨_, by simp only [Action.insert_field, h0, h1, h2, hcs, h3, hC]; rfl⟩
    · intro h
      by_cases h0 : g.title = ""
      · exact ⟨_, by simp only [Action.insert_flag, h0]; rfl⟩
      · by_cases h1 : containsA g.title fl = true
        · exact ⟨_, by simp only [Action.insert_flag, h0, h1]; rfl⟩
        · by_cases h2 : containsA g.title fs = true
          · exact ⟨_, by simp only [Action.insert_flag, h0, h1, h2]; rfl⟩
          · rcases h with hA | hB | ⟨c, hcs, hC⟩
            · exact absurd hA h1
            · exact absurd hB h2
            · by_cases h3 : containsA (String.mk [c]) fl = true
              · exact ⟨_, by simp only [Action.insert_flag, h0, h1, h2, hcs, h3]; rfl⟩
              · rcases hC with hC | hC
                · exact absurd hC h3
                · exact ⟨_, by simp only [Action.insert_flag, h0, h1, h2, hcs, h3, hC]; rfl⟩
    · intro a2 h
      by_cases h0 : f.title = ""
      · simp [Action.insert_field, h0] at h
      · by_cases h1 : containsA f.title fs = true
        · simp [Action.insert_field, h0, h1] at h
        · by_cases h2 : containsA f.title fl = true
          · simp [Action.insert_field, h0, h1, h2] at h
          · cases hs : f.short with
            | none =>
              simp only [Action.insert_field, if_neg h0, if_neg h1, if_neg h2, hs] at h
              cases h
              constructor
              · simp [Action.fields, containsA_insertA_self]
              · intro c hcc
                cases hcc
            | some c =>
              by_cases h3 : containsA (String.mk [c]) fs = true
              · simp [Action.insert_field, h0, h1, h2, hs, h3] at h
              · by_cases h4 : containsA (String.mk [c]) fl = true
                · simp [Action.insert_field, h0, h1, h2, hs, h3, h4] at h
                · simp only [Action.insert_field, if_neg h0, if_neg h1, if_neg h2, hs,
                    if_neg h3, if_neg h4] at h
                  cases h
                  constructor
                  · simp [Action.fields, containsA_insertA_self]
                  · intro c2 hcc
                    cases hcc
                    simp [Action.fields]
                    exact containsA_insertA_of f.title f (containsA_insertA_self _ f fs)
    · intro a2 h
      by_cases h0 : g.title = ""
      · simp [Action.insert_flag, h0] at h
      · by_cases h1 : containsA g.title fl = true
        · simp [Action.insert_flag, h0, h1] at h
        · by_cases h2 : containsA g.title fs = true
          · simp [Action.insert_flag, h0, h1, h2] at h
          · cases hs : g.short with
            | none =>
              simp only [Action.insert_flag, if_neg h0, if_neg h1, if_neg h2, hs] at h
              cases h
              constructor
              · simp [Action.flags, containsA_insertA_self]
              · intro c hcc
                cases hcc
            | some c =>
              by_cases h3 : containsA (String.mk [c]) fl = true
              · simp [Action.insert_flag, h0, h1, h2, hs, h3] at h
              · by_cases h4 : containsA (String.mk [c]) fs = true
                · simp [Action.insert_flag, h0, h1, h2, hs, h3, h4] at h
                · simp only [Action.insert_flag, if_neg h0, if_neg h1, if_neg h2, hs,
                    if_neg h3, if_neg h4] at h
                  cases h
                  constructor
                  · simp [Action.flags, containsA_insertA_self]
                  · intro c2 hcc
                    cases hcc
                    simp [Action.flags]
                    exact containsA_insertA_of g.title g (containsA_insertA_self _ g fl)

/-- Fixture: the flag `force` with short alias `c`. -/
def flagC : Flag := ⟨"force", none, some 'c'⟩

/-- Fixture: an action already holding `flagC` under both of its keys. -/
def actC : Action := .mk "act" none [] [] [("force", flagC), ("c", flagC)] []

/-- Fixture: a field named `config` whose short alias `c` collides with
`flagC`'s short on `actC`. -/
def fldC : Field := ⟨"config", none, some 'c', none, none⟩

/-- Witness for C9: inserting `fldC` into `actC` fails because its short
collides with the already-inserted flag's short. -/
theorem insert_field_flag_collision_witness :
    (containsA "config" actC.fields = true ∨ containsA "config" actC.flags = true ∨
      (∃ c, fldC.short = some c ∧
        (containsA (String.mk [c]) actC.fields = true ∨
          containsA (String.mk [c]) actC.flags = true))) ∧
    ∃ e, actC.insert_field fldC = .error e :=
  ⟨Or.inr (Or.inr ⟨'c', rfl, Or.inr rfl⟩),
    (insert_field_flag_collision actC fldC flagC).1 (Or.inr (Or.inr ⟨'c', rfl, Or.inr rfl⟩))⟩

/-! ### C4: classification of a single-dash token -/

/-- Fixture: a field titled `effield` with the two-byte short alias `é`. -/
def fldE : Field := ⟨"effield", none, some 'é', none, none⟩

/-- Fixture: the action `act` holding `fldE` under both of its keys. -/
def actE : Action := .mk "act" none [] [("é", fldE), ("effield", fldE)] [] []

/-- Fixture: a runner holding `actE`. -/
def cherryE : Cherry := ⟨[("act", actE)]⟩

/-- Counterexample to C4 as stated: for the token `-é` — a single `-`
followed by exactly one character that is no flag short — the claim demands
that the next token `v` be consumed as the value of the field with short
`é`; that insertion would succeed (the field is known, a next token exists,
no filter is present), yet `parse` errors, because `é` is two bytes long so
the token takes the combined-short-flags path and its UTF-8 bytes resolve
to no flag. -/
theorem single_dash_multibyte_counterexample :
    (Request.new actE).insert_field "é" "v" =
      .ok { action := actE, arguments := [], fields := [("effield", some "v")], flags := [] } ∧
    cherryE.parse ["act", "-é", "v"] = .error (Error.new "Todo: Help.") :=
  ⟨rfl, rfl⟩

/-- C4 (amended): for a token consisting of a single `-` followed by exactly
one single-byte character `c`: when the one-character string `c` is a key of
the resolved action's flag map (a flag short or one-character flag title),
the classifier marks that flag; otherwise it consumes the next token as the
value of the field keyed `c` — erroring when no next token remains, and
otherwise succeeding or failing exactly as `Request::insert_field` does for
an unknown key or a rejecting filter. -/
theorem classify_single_dash (request : Request) (value : String) (next : Option String) (c : Char)
    (hv : value.data = ['-', c]) (hc : ¬ c = '-') (hb : utf8Len [c] = 1) :
    parseClassify request value next =
      if request.has_flag (String.mk [c]) then
        match request.insert_flag (String.mk [c]) with
        | .error e => .error e
        | .ok r => .ok (r, false)
      else
        match next with
        | none => .error (Error.new "Todo: Help.")
        | some v =>
          match request.insert_field (String.mk [c]) (Cherry.escape v) with
          | .error e => .error e
          | .ok r => .ok (r, true)
    := by
  simp only [parseClassify, hv, stripPrefixChar, if_pos rfl]
  simp [hc, hb]

/-- Fixture: the action `run` with the flag `verbose`, short `v`. -/
def actD : Action :=
  .mk "run" none [] [] [("verbose", ⟨"verbose", none, some 'v'⟩), ("v", ⟨"verbose", none, some 'v'⟩)] []

/-- Witness for the amended C4: the token `-v` against `actD` marks the
`verbose` flag. -/
theorem classify_single_dash_witness :
    ("-v" : String).data = ['-', 'v'] ∧ ¬ ('v' = '-') ∧ utf8Len ['v'] = 1 ∧
    parseClassify (Request.new actD) "-v" none =
      .ok ({ action := actD, arguments := [], fields := [], flags := [("verbose", true)] }, false) :=
  ⟨rfl, by decide, rfl,
    (classify_single_dash (Request.new actD) "-v" none 'v' rfl (by decide) rfl).trans rfl⟩

/-! ### C3: the four chained replaces act as one left-to-right rewrite

The proof decomposes the input into maximal runs of backslashes followed by
a non-backslash character and computes, for each of the four `replace`
passes and for the single-pass rewrite, a closed form on such runs. -/

theorem bs_succ (n : Nat) (x : List Char) :
    List.replicate (n + 1) '\\' ++ x = '\\' :: (List.replicate n '\\' ++ x) := by
  rw [List.replicate_succ, List.cons_append]

theorem replaceEsc_cons (b d : Char) (hd : ¬ d = '\\') (t : List Char) :
    replaceEsc b (d :: t) = d :: replaceEsc b t := by
  cases t with
  | nil => rfl
  | cons y rest => simp [replaceEsc, hd]

theorem replaceEsc_bs_cons (b y : Char) (rest : List Char) (hy : ¬ y = b) :
    replaceEsc b ('\\' :: y :: rest) = '\\' :: replaceEsc b (y :: rest) := by
  simp [replaceEsc, hy]

theorem replaceEsc_run_hit (b : Char) (hb : ¬ b = '\\') (n : Nat) (t : List Char) :
    replaceEsc b (List.replicate (n + 1) '\\' ++ b :: t) =
      List.replicate n '\\' ++ b :: replaceEsc b t := by
  induction n with
  | zero => simp [replaceEsc]
  | succ n ih =>
    rw [bs_succ, bs_succ]
    rw [replaceEsc_bs_cons b '\\' _ (fun h => hb h.symm)]
    rw [← bs_succ, ih]
    rw [bs_succ]

theorem replaceEsc_run_pass (b d : Char) (hb : ¬ b = '\\') (hd : ¬ d = '\\') (hdb : ¬ d = b)
    (n : Nat) (t : List Char) :
    replaceEsc b (List.replicate n '\\' ++ d :: t) =
      List.replicate n '\\' ++ d :: replaceEsc b t := by
  induction n with
  | zero => simpa using replaceEsc_cons b d hd t
  | succ n ih =>
    rw [bs_succ, bs_succ]
    cases n with
    | zero =>
      simp only [List.replicate_zero, List.nil_append]
      rw [replaceEsc_bs_cons b d t hdb, replaceEsc_cons b d hd t]
    | succ m =>
      rw [bs_succ] at ih ⊢
      rw [replaceEsc_bs_cons b '\\' _ (fun h => hb h.symm), ih]

theorem replaceEsc_run_nil (b : Char) (hb : ¬ b = '\\') (n : Nat) :
    replaceEsc b (List.replicate n '\\') = List.replicate n '\\' := by
  induction n with
  | zero => rfl
  | succ n ih =>
    rw [List.replicate_succ]
    cases n with
    | zero => rfl
    | succ m =>
      rw [List.replicate_succ] at ih ⊢
      rw [replaceEsc_bs_cons b '\\' _ (fun h => hb h.symm), ih]

theorem replaceEsc_bs_run (d : Char) (hd : ¬ d = '\\') (n : Nat) (t : List Char) :
    replaceEsc '\\' (List.replicate n '\\' ++ d :: t) =
      List.replicate (n - n / 2) '\\' ++ d :: replaceEsc '\\' t := by
  induction n using Nat.twoStepInduction with
  | zero => simpa using replaceEsc_cons '\\' d hd t
  | one =>
    rw [bs_succ]
    simp only [List.replicate_zero, List.nil_append]
    rw [replaceEsc_bs_cons '\\' d t hd, replaceEsc_cons '\\' d hd t]
    rfl
  | more n ih _ =>
    rw [bs_succ, bs_succ]
    rw [show replaceEsc '\\' ('\\' :: '\\' :: (List.replicate n '\\' ++ d :: t)) =
        '\\' :: replaceEsc '\\' (List.replicate n '\\' ++ d :: t) by simp [replaceEsc]]
    rw [ih, show n + 2 - (n + 2) / 2 = (n - n / 2) + 1 by omega]
    rw [bs_succ]

theorem replaceEsc_bs_nil (n : Nat) :
    replaceEsc '\\' (List.replicate n '\\') = List.replicate (n - n / 2) '\\' := by
  induction n using Nat.twoStepInduction with
  | zero => rfl
  | one => rfl
  | more n ih _ =>
    rw [List.replicate_succ, List.replicate_succ]
    rw [show replaceEsc '\\' ('\\' :: '\\' :: List.replicate n '\\') =
        '\\' :: replaceEsc '\\' (List.replicate n '\\') by simp [replaceEsc]]
    rw [ih, show n + 2 - (n + 2) / 2 = (n - n / 2) + 1 by omega]
    rw [List.replicate_succ]

theorem escapeSpec_cons (d : Char) (hd : ¬ d = '\\') (t : List Char) :
    escapeSpec (d :: t) = d :: escapeSpec t := by
  cases t with
  | nil => rfl
  | cons y rest => simp [escapeSpec, hd]

theorem escapeSpec_run_special (d : Char) (hd : d = '\'' ∨ d = '"' ∨ d = '-')
    (n : Nat) (t : List Char) :
    escapeSpec (List.replicate n '\\' ++ d :: t) =
      List.replicate (n / 2) '\\' ++ d :: escapeSpec t := by
  have hd2 : ¬ d = '\\' := by rcases hd with h | h | h <;> subst h <;> decide
  induction n using Nat.twoStepInduction with
  | zero => simpa using escapeSpec_cons d hd2 t
  | one =>
    rw [bs_succ]
    simp only [List.replicate_zero, List.nil_append]
    rw [show escapeSpec ('\\' :: d :: t) = d :: escapeSpec t by
      rcases hd with h | h | h <;> subst h <;> simp [escapeSpec]]
    rfl
  | more n ih _ =>
    rw [bs_succ, bs_succ]
    rw [show escapeSpec ('\\' :: '\\' :: (List.replicate n '\\' ++ d :: t)) =
        '\\' :: escapeSpec (List.replicate n '\\' ++ d :: t) by simp [escapeSpec]]
    rw [ih, show (n + 2) / 2 = n / 2 + 1 by omega]
    rw [bs_succ]

theorem escapeSpec_run_plain (d : Char) (hd1 : ¬ d = '\'') (hd2 : ¬ d = '"') (hd3 : ¬ d = '-')
    (hd4 : ¬ d = '\\') (n : Nat) (t : List Char) :
    escapeSpec (List.replicate n '\\' ++ d :: t) =
      List.replicate ((n + 1) / 2) '\\' ++ d :: escapeSpec t := by
  induction n using Nat.twoStepInduction with
  | zero => simpa using escapeSpec_cons d hd4 t
  | one =>
    rw [bs_succ]
    simp only [List.replicate_zero, List.nil_append]
    rw [show escapeSpec ('\\' :: d :: t) = '\\' :: escapeSpec (d :: t) by
      simp [escapeSpec, hd1, hd2, hd3, hd4]]
    rw [escapeSpec_cons d hd4 t]
    rfl
  | more n ih _ =>
    rw [bs_succ, bs_succ]
    rw [show escapeSpec ('\\' :: '\\' :: (List.replicate n '\\' ++ d :: t)) =
        '\\' :: escapeSpec (List.replicate n '\\' ++ d :: t) by simp [escapeSpec]]
    rw [ih, show (n + 2 + 1) / 2 = (n + 1) / 2 + 1 by omega]
    rw [bs_succ]

theorem escapeSpec_run_nil (n : Nat) :
    escapeSpec (List.replicate n '\\') = List.replicate (n - n / 2) '\\' := by
  induction n using Nat.twoStepInduction with
  | zero => rfl
  | one => rfl
  | more n ih _ =>
    rw [List.replicate_succ, List.replicate_succ]
    rw [show escapeSpec ('\\' :: '\\' :: List.replicate n '\\') =
        '\\' :: escapeSpec (List.replicate n '\\') by simp [escapeSpec]]
    rw [ih, show n + 2 - (n + 2) / 2 = (n - n / 2) + 1 by omega]
    rw [List.replicate_succ]

theorem escapeChars_run_special (d : Char) (hd : d = '\'' ∨ d = '"' ∨ d = '-')
    (n : Nat) (t : List Char) :
    escapeChars (List.replicate n '\\' ++ d :: t) =
      List.replicate ((n - 1) - (n - 1) / 2) '\\' ++ d :: escapeChars t := by
  unfold escapeChars
  rcases hd with h | h | h <;> subst h
  · cases n with
    | zero =>
      simp only [List.replicate_zero, List.nil_append]
      rw [replaceEsc_cons '\'' '\'' (by decide) t,
        replaceEsc_cons '"' '\'' (by decide), replaceEsc_cons '-' '\'' (by decide),
        replaceEsc_cons '\\' '\'' (by decide)]
      simp
    | succ m =>
      rw [replaceEsc_run_hit '\'' (by decide) m t,
        replaceEsc_run_pass '"' '\'' (by decide) (by decide) (by decide) m _,
        replaceEsc_run_pass '-' '\'' (by decide) (by decide) (by decide) m _,
        replaceEsc_bs_run '\'' (by decide) m _]
      simp
  · cases n with
    | zero =>
      simp only [List.replicate_zero, List.nil_append]
      rw [replaceEsc_cons '\'' '"' (by decide) t,
        replaceEsc_cons '"' '"' (by decide), replaceEsc_cons '-' '"' (by decide),
        replaceEsc_cons '\\' '"' (by decide)]
      simp
    | succ m =>
      rw [replaceEsc_run_pass '\'' '"' (by decide) (by decide) (by decide) (m + 1) t,
        replaceEsc_run_hit '"' (by decide) m _,
        replaceEsc_run_pass '-' '"' (by decide) (by decide) (by decide) m _,
        replaceEsc_bs_run '"' (by decide) m _]
      simp
  · cases n with
    | zero =>
      simp only [List.replicate_zero, List.nil_append]
      rw [replaceEsc_cons '\'' '-' (by decide) t,
        replaceEsc_cons '"' '-' (by decide), replaceEsc_cons '-' '-' (by decide),
        replaceEsc_cons '\\' '-' (by decide)]
      simp
    | succ m =>
      rw [replaceEsc_run_pass '\'' '-' (by decide) (by decide) (by decide) (m + 1) t,
        replaceEsc_run_pass '"' '-' (by decide) (by decide) (by decide) (m + 1) _,
        replaceEsc_run_hit '-' (by decide) m _,
        replaceEsc_bs_run '-' (by decide) m _]
      simp

theorem escapeChars_run_plain (d : Char) (hd1 : ¬ d = '\'') (hd2 : ¬ d = '"') (hd3 : ¬ d = '-')
    (hd4 : ¬ d = '\\') (n : Nat) (t : List Char) :
    escapeChars (List.replicate n '\\' ++ d :: t) =
      List.replicate (n - n / 2) '\\' ++ d :: escapeChars t := by
  unfold escapeChars
  rw [replaceEsc_run_pass '\'' d (by decide) hd4 hd1 n t,
    replaceEsc_run_pass '"' d (by decide) hd4 hd2 n _,
    replaceEsc_run_pass '-' d (by decide) hd4 hd3 n _,
    replaceEsc_bs_run d hd4 n _]

theorem escapeChars_run_nil (n : Nat) :
    escapeChars (List.replicate n '\\') = List.replicate (n - n / 2) '\\' := by
  unfold escapeChars
  rw [replaceEsc_run_nil '\'' (by decide) n, replaceEsc_run_nil '"' (by decide) n,
    replaceEsc_run_nil '-' (by decide) n, replaceEsc_bs_nil n]

theorem run_decomp (l : List Char) :
    ∃ n rest, l = List.replicate n '\\' ++ rest ∧
      (rest = [] ∨ ∃ d t, rest = d :: t ∧ ¬ d = '\\') := by
  induction l with
  | nil => exact ⟨0, [], rfl, Or.inl rfl⟩
  | cons c l ih =>
    by_cases hc : c = '\\'
    · subst hc
      obtain ⟨n, rest, he, hr⟩ := ih
      exact ⟨n + 1, rest, by rw [bs_succ, ← he], hr⟩
    · exact ⟨0, c :: l, by simp, Or.inr ⟨c, l, rfl, hc⟩⟩

theorem escapeChars_eq_escapeSpec (l : List Char) : escapeChars l = escapeSpec l := by
  have H : ∀ (N : Nat) (l : List Char), l.length ≤ N → escapeChars l = escapeSpec l := by
    intro N
    induction N with
    | zero =>
      intro l hlen
      have hnil : l = [] := List.eq_nil_of_length_eq_zero (Nat.le_zero.mp hlen)
      subst hnil
      rfl
    | succ N ih =>
      intro l hlen
      obtain ⟨n, rest, he, hr⟩ := run_decomp l
      subst he
      rcases hr with h | ⟨d, t, hrt, hd⟩
      · subst h
        simp only [List.append_nil]
        rw [escapeChars_run_nil, escapeSpec_run_nil]
      · subst hrt
        have hlt : t.length ≤ N := by
          simp only [List.length_append, List.length_replicate, List.length_cons] at hlen
          omega
        by_cases hspec : d = '\'' ∨ d = '"' ∨ d = '-'
        · rw [escapeChars_run_special d hspec n t, escapeSpec_run_special d hspec n t, ih t hlt,
            show (n - 1) - (n - 1) / 2 = n / 2 by omega]
        · push_neg at hspec
          rw [escapeChars_run_plain d hspec.1 hspec.2.1 hspec.2.2 hd n t,
            escapeSpec_run_plain d hspec.1 hspec.2.1 hspec.2.2 hd n t, ih t hlt,
            show n - n / 2 = (n + 1) / 2 by omega]
  exact H l.length l le_rfl

/-- C3: `Cherry::escape` — the unescape pass that `parse` applies to the
selector token and to every classified token — behaves on every input
string as one single left-to-right rewrite of exactly the four sequences
`\'`, `\"`, `\-`, `\\`; any other backslash-prefixed pair passes through
unchanged, backslash included (that is the `escapeSpec` rewrite). -/
theorem escape_eq_single_pass (value : String) :
    (Cherry.escape value).data = escapeSpec value.data :=
  escapeChars_eq_escapeSpec value.data

end cherry
